import Mathlib

/-!
Verification of the job-lifecycle and process-supervision core of a
video-transcoding service (`handbrake_mcp.services.handbrake`).

The Python source is shallowly embedded: the `HandBrakeService` methods
`_sanitize_options`, `_validate_and_secure_path`, `transcode`,
`_run_transcode_job`, `get_job_status` and `cancel_job` become pure Lean
functions over an explicit service state.  Python dictionaries become
association lists (preserving insertion order, as CPython dicts do),
`pathlib` paths become strings over a POSIX, symlink-free filesystem
modelled by oracle functions, float progress values become rationals,
and exceptions become `Except` values or explicit outcome data.
-/

namespace HandbrakeMCP

/-- A value of the `options` dictionary: Python `Union[str, int, float, bool]`.
`isinstance` tests in the source become constructor matches (the source
tests `bool` before `int`, which the disjoint constructors reproduce). -/
inductive OptValue where
  | str (s : String)
  | int (i : Int)
  | float (q : ℚ)
  | bool (b : Bool)
deriving DecidableEq, Repr

/-- The fixed allow-list `allowed_keys` of `_sanitize_options`. -/
def allowedKeys : List String :=
  ["quality", "encoder", "audio", "ab", "ar", "acodec", "aname", "aencoder",
   "subtitle", "scodec", "sencoder", "width", "height", "crop", "deinterlace",
   "denoise", "deblock", "colorspace", "format", "optimize", "ipod-atom",
   "use-opencl", "use-qsv", "use-nvenc", "preset", "input", "output"]

/-- The shell metacharacters stripped from string option values in
`_sanitize_options`: semicolon, ampersand, pipe, backquote, dollar,
parentheses, angle brackets, double quote, single quote. -/
def dangerousValueChars : List Char :=
  [';', '&', '|', Char.ofNat 96, '$', '(', ')', '<', '>', Char.ofNat 34, Char.ofNat 39]

/-- Python `str.strip()`: drop leading and trailing whitespace.  Written
on the character list so that it evaluates inside the kernel. -/
def pyStrip (s : String) : String :=
  String.mk (((s.data.dropWhile Char.isWhitespace).reverse.dropWhile Char.isWhitespace).reverse)

/-- The key-cleaning join in `_sanitize_options`:
`"".join(c for c in safe_key if c.isalnum() or c in ['-', '_'])`. -/
def filterKeyChars (k : String) : String :=
  String.mk (k.data.filter (fun c => c.isAlphanum || c == '-' || c == '_'))

/-- Per-value sanitization of `_sanitize_options`: booleans pass through,
numbers outside plus-or-minus 1,000,000 are dropped, strings are stripped,
dropped if longer than `_max_option_value_length = 1000`, and otherwise
have the dangerous characters removed. `none` models `continue`. -/
def sanitizeValue (v : OptValue) : Option OptValue :=
  match v with
  | .bool b => some (.bool b)
  | .int i => if -1000000 ≤ i ∧ i ≤ 1000000 then some (.int i) else none
  | .float q => if -1000000 ≤ q ∧ q ≤ 1000000 then some (.float q) else none
  | .str s =>
    let sv := pyStrip s
    if sv.length > 1000 then none
    else some (.str (String.mk (sv.data.filter (fun c => decide (c ∉ dangerousValueChars)))))

/-- `HandBrakeService._sanitize_options`, over an association list standing
for the Python dict (iteration in insertion order).  A key is kept only if
its stripped form is in `allowedKeys`; kept keys are passed through the
character filter; values are sanitized by `sanitizeValue`, a `none`
result modelling the `continue` that silently drops the entry. -/
def sanitizeOptions : List (String × OptValue) → List (String × OptValue)
  | [] => []
  | (k, v) :: rest =>
    let safeKey := pyStrip k
    if safeKey ∈ allowedKeys then
      match sanitizeValue v with
      | some sv => (filterKeyChars safeKey, sv) :: sanitizeOptions rest
      | none => sanitizeOptions rest
    else sanitizeOptions rest

theorem filterKeyChars_of_allowed {k : String} (h : k ∈ allowedKeys) :
    filterKeyChars k = k := by
  simp only [allowedKeys, List.mem_cons, List.not_mem_nil, or_false] at h
  rcases h with rfl | rfl | rfl | rfl | rfl | rfl | rfl | rfl | rfl | rfl | rfl | rfl | rfl |
    rfl | rfl | rfl | rfl | rfl | rfl | rfl | rfl | rfl | rfl | rfl | rfl | rfl | rfl <;> rfl

theorem sanitizeValue_str_safe {v sv : OptValue} (h : sanitizeValue v = some sv) :
    ∀ s, sv = OptValue.str s → ∀ c ∈ s.data, c ∉ dangerousValueChars := by
  intro s hs c hc
  cases v with
  | bool b => simp [sanitizeValue] at h; simp [← h] at hs
  | int i =>
    simp only [sanitizeValue] at h
    split at h
    · simp at h; simp [← h] at hs
    · exact absurd h (by simp)
  | float q =>
    simp only [sanitizeValue] at h
    split at h
    · simp at h; simp [← h] at hs
    · exact absurd h (by simp)
  | str s0 =>
    simp only [sanitizeValue] at h
    split at h
    · exact absurd h (by simp)
    · simp only [Option.some.injEq] at h
      subst h
      cases hs
      simp only [List.mem_filter] at hc
      exact of_decide_eq_true hc.2

/-- C5: every entry surviving `_sanitize_options` has a key from the fixed
allow-list, and every surviving string value contains none of the shell
metacharacters; offending entries are dropped rather than failing. -/
theorem c5_sanitize_options_safe (opts : List (String × OptValue)) (k : String) (v : OptValue)
    (h : (k, v) ∈ sanitizeOptions opts) :
    k ∈ allowedKeys ∧ ∀ s, v = OptValue.str s → ∀ c ∈ s.data, c ∉ dangerousValueChars := by
  induction opts with
  | nil => simp [sanitizeOptions] at h
  | cons kv rest ih =>
    obtain ⟨k0, v0⟩ := kv
    simp only [sanitizeOptions] at h
    split at h
    · rename_i hmem
      cases hsv : sanitizeValue v0 with
      | some sv =>
        rw [hsv] at h
        rcases List.mem_cons.mp h with heq | htail
        · injection heq with hk hv
          constructor
          · rw [hk, filterKeyChars_of_allowed hmem]; exact hmem
          · rw [hv]; exact sanitizeValue_str_safe hsv
        · exact ih htail
      | none => rw [hsv] at h; exact ih h
    · exact ih h

/-- Witness for C5 at a concrete options dictionary: the `encoder` entry
survives with its semicolon stripped, the unknown key is dropped. -/
theorem c5_sanitize_options_safe_witness :
    "encoder" ∈ allowedKeys ∧ ';' ∉ "x264 rm".data :=
  have h := c5_sanitize_options_safe
    [("encoder", OptValue.str "x264; rm"), ("rm -rf", OptValue.str "x")]
    "encoder" (OptValue.str "x264 rm") (by decide)
  ⟨h.1, fun hc => h.2 "x264 rm" rfl ';' hc (by decide)⟩

/-- The `dangerous_chars` list of `_validate_and_secure_path`:
angle brackets, colon, double quote, pipe, question mark, star. -/
def dangerousPathChars : List Char :=
  ['<', '>', ':', Char.ofNat 34, '|', '?', '*']

/-- The allowed video container extensions of `_validate_and_secure_path`. -/
def allowedExtensions : List String :=
  [".mp4", ".mkv", ".avi", ".mov", ".m4v", ".wmv", ".flv", ".webm"]

/-- Split a character list on a separator (groups between separators). -/
def splitChars (sep : Char) : List Char → List (List Char)
  | [] => [[]]
  | c :: rest =>
    match splitChars sep rest with
    | [] => [[c]]
    | g :: gs => if c == sep then [] :: g :: gs else (c :: g) :: gs

/-- The component list of a POSIX path string, dropping empty components
(as `pathlib.PurePosixPath` does for repeated or trailing slashes). -/
def splitPath (s : String) : List String :=
  ((splitChars '/' s.data).map String.mk).filter (fun c => decide (c ≠ ""))

/-- Whether a POSIX path string is absolute. -/
def isAbsolutePath (s : String) : Bool :=
  match s.data with
  | c :: _ => c == '/'
  | [] => false

/-- Lexical normalization performed by `Path.resolve()` on a symlink-free
filesystem: `.` components are dropped and `..` pops the previous
component (a `..` at the root stays at the root). -/
def resolveParts (parts : List String) : List String :=
  parts.foldl
    (fun acc p => if p = "." then acc else if p = ".." then acc.dropLast else acc ++ [p]) []

/-- `Path(path).resolve()` as a component list: relative paths are first
anchored at the current working directory `cwd` (itself a component list). -/
def resolvePath (cwd : List String) (s : String) : List String :=
  resolveParts (if isAbsolutePath s then splitPath s else cwd ++ splitPath s)

/-- Render a resolved component list back to an absolute path string. -/
def joinParts (parts : List String) : String :=
  "/" ++ String.intercalate "/" parts

/-- The final component of a resolved path (`Path.name`; `""` at the root). -/
def lastComponent (parts : List String) : String :=
  (parts.getLast?).getD ""

/-- Python `str.lower()` restricted to ASCII, written on character lists. -/
def pyLower (s : String) : String :=
  String.mk (s.data.map Char.toLower)

/-- `Path.suffix`: the extension of the final component, from the last
dot onward, empty when the name has no dot, starts with its only dot,
or ends with the dot. -/
def suffixOfName (name : String) : String :=
  let cs := name.data
  match (cs.reverse).indexOf? '.' with
  | some j =>
    let i := cs.length - 1 - j
    if 0 < i ∧ i < cs.length - 1 then String.mk (cs.drop i) else ""
  | none => ""

/-- The errors `transcode` and `_validate_and_secure_path` can raise
(`ValueError` / `FileNotFoundError` variants, identified by message). -/
inductive TranscodeError where
  | invalidPathChars (path : String)
  | traversal (path : String)
  | unsupportedFormat (suffix : String)
  | pathTooLong (path : String)
  | fileNotFound (path : String)
  | fileTooLarge (size : Nat)
  | fileTooSmall (size : Nat)
  | maxConcurrentReached
  | resource (msg : String)
  | invalidPreset (p : String)
deriving DecidableEq, Repr

/-- `HandBrakeService._validate_and_secure_path`.  `isFile` is the
filesystem oracle behind `path_obj.is_file()`, queried at the resolved
path.  Check order follows the source: dangerous characters in the raw
string, then `..` in the parts of the resolved path, then the extension
allow-list when the resolved path is an existing file, then the length
bound on the resolved path. -/
def validateAndSecurePath (isFile : String → Bool) (cwd : List String) (path : String) :
    Except TranscodeError String :=
  if path.data.any (fun c => decide (c ∈ dangerousPathChars)) then
    Except.error (TranscodeError.invalidPathChars path)
  else if ".." ∈ resolvePath cwd path then Except.error (TranscodeError.traversal path)
  else if isFile (joinParts (resolvePath cwd path)) ∧
      pyLower (suffixOfName (lastComponent (resolvePath cwd path))) ∉ allowedExtensions then
    Except.error (TranscodeError.unsupportedFormat (suffixOfName (lastComponent (resolvePath cwd path))))
  else if (joinParts (resolvePath cwd path)).length > 1000 then
    Except.error (TranscodeError.pathTooLong path)
  else Except.ok (joinParts (resolvePath cwd path))

theorem resolveParts_no_dotdot (parts : List String) : ".." ∉ resolveParts parts := by
  suffices h : ∀ acc : List String, ".." ∉ acc →
      ".." ∉ parts.foldl
        (fun acc p => if p = "." then acc else if p = ".." then acc.dropLast else acc ++ [p])
        acc from h [] (by simp)
  induction parts with
  | nil => intro acc hacc; simpa using hacc
  | cons p rest ih =>
    intro acc hacc
    simp only [List.foldl_cons]
    by_cases h1 : p = "."
    · simp only [h1, if_pos rfl]; exact ih acc hacc
    · by_cases h2 : p = ".."
      · simp only [if_neg h1, h2, if_pos rfl]
        exact ih _ (fun hmem => hacc (List.dropLast_subset acc hmem))
      · simp only [if_neg h1, if_neg h2]
        refine ih _ (fun hmem => ?_)
        rcases List.mem_append.mp hmem with h | h
        · exact hacc h
        · simp only [List.mem_singleton] at h; exact h2 h.symm

/-- C4 counterexample: the input path `/a/../b.mp4` has `..` in its
component list, yet `_validate_and_secure_path` accepts it, because the
traversal check inspects the parts of the already-resolved path:
`Path.resolve()` has eliminated the `..` before the check runs. -/
theorem c4_counterexample :
    ".." ∈ splitPath "/a/../b.mp4" ∧
      validateAndSecurePath (fun _ => false) [] "/a/../b.mp4" = Except.ok "/b.mp4" :=
  ⟨by decide, rfl⟩

/-- C4 amended: the `..` rejection applies to the resolved component
list, which never contains `..`, so the validation never raises the
traversal error for any input (paths written with `..` are normalized
and accepted, subject to the remaining checks); the extension check is
as claimed: a path resolving to an existing file whose lower-cased
suffix is outside the allow-list is always rejected. -/
theorem c4_path_validation :
    (∀ (isFile : String → Bool) (cwd : List String) (path q : String),
        validateAndSecurePath isFile cwd path ≠ Except.error (TranscodeError.traversal q)) ∧
    (∀ (isFile : String → Bool) (cwd : List String) (path : String),
        (path.data.any (fun c => decide (c ∈ dangerousPathChars))) = false →
        isFile (joinParts (resolvePath cwd path)) = true →
        pyLower (suffixOfName (lastComponent (resolvePath cwd path))) ∉ allowedExtensions →
        validateAndSecurePath isFile cwd path =
          Except.error (TranscodeError.unsupportedFormat
            (suffixOfName (lastComponent (resolvePath cwd path))))) := by
  constructor
  · intro isFile cwd path q
    unfold validateAndSecurePath
    split
    · simp
    · split
      · rename_i hmem
        exact absurd hmem (resolveParts_no_dotdot _)
      · split
        · simp
        · split <;> simp
  · intro isFile cwd path hdc hfile hext
    unfold validateAndSecurePath
    rw [if_neg (by rw [hdc]; simp),
      if_neg (show ".." ∉ resolvePath cwd path from resolveParts_no_dotdot _),
      if_pos ⟨hfile, hext⟩]

/-- Witness for the amended C4 at a concrete existing file with a
disallowed extension. -/
theorem c4_path_validation_witness :
    validateAndSecurePath (fun s => s == "/data/movie.exe") [] "/data/movie.exe" =
      Except.error (TranscodeError.unsupportedFormat ".exe") :=
  c4_path_validation.2 (fun s => s == "/data/movie.exe") [] "/data/movie.exe"
    (by decide) (by decide) (by decide)

/-- `settings.default_preset` from `core/config.py`. -/
def defaultPreset : String := "Fast 1080p30"

/-- The `TranscodeJob` pydantic model.  `process` is the opaque handle to
the spawned external process, modelled by its pid; `progress` (a Python
float holding values parsed from decimal JSON) is modelled by a rational. -/
structure TranscodeJob where
  job_id : String
  input_path : String
  output_path : String
  preset : String
  options : List (String × OptValue)
  status : String
  progress : ℚ
  error : Option String
  process : Option Nat
deriving DecidableEq, Repr

/-- The registry `self.jobs : Dict[str, TranscodeJob]`, as an insertion
ordered association list. -/
abbrev JobMap := List (String × TranscodeJob)

/-- Python `dict.get`. -/
def lookupJob : JobMap → String → Option TranscodeJob
  | [], _ => none
  | (k, j) :: rest, id => if k = id then some j else lookupJob rest id

/-- Python `dict.__setitem__`: replace in place, or append a new entry. -/
def setJob : JobMap → String → TranscodeJob → JobMap
  | [], id, j => [(id, j)]
  | (k, j0) :: rest, id, j =>
    if k = id then (id, j) :: rest else (k, j0) :: setJob rest id j

/-- `HandBrakeService.get_job_status`. -/
def get_job_status (jobs : JobMap) (id : String) : Option TranscodeJob :=
  lookupJob jobs id

/-- The terminal statuses. -/
def isTerminal (s : String) : Prop :=
  s = "completed" ∨ s = "failed" ∨ s = "cancelled"

instance (s : String) : Decidable (isTerminal s) := by
  unfold isTerminal; infer_instance

/-- `HandBrakeService.cancel_job`.  False when the job id is unknown or the
job's `process` field is `None` (Python falsiness).  Otherwise the external
process is terminated — gracefully, then killed after the 5 second grace
period; both paths merge — the job's status is set to `cancelled` in place,
and True is returned.  The terminate/kill calls and the grace-period wait
act only on the external process, not on the job record, so they leave the
registry unchanged. -/
def cancel_job (jobs : JobMap) (id : String) : Bool × JobMap :=
  match lookupJob jobs id with
  | none => (false, jobs)
  | some job =>
    match job.process with
    | none => (false, jobs)
    | some _ => (true, setJob jobs id { job with status := "cancelled" })

/-- One stdout line of the external worker, as seen by the read loop of
`_run_transcode_job`: `some v` is a line that `json.loads` parses to an
object with a numeric `Progress` field `v`; `none` is any other line
(ignored as log noise). -/
abbrev WorkerLine := Option ℚ

/-- The fold of the stdout read loop: each parsed `Progress` value
overwrites `job.progress`; other lines leave it unchanged. -/
def runLoop (p : ℚ) : List WorkerLine → ℚ
  | [] => p
  | l :: ls => runLoop (l.getD p) ls

/-- The successive values of `job.progress` observable at the suspension
points of the read loop (before each line and after the last). -/
def obsList (p : ℚ) : List WorkerLine → List ℚ
  | [] => [p]
  | l :: ls => p :: obsList (l.getD p) ls

/-- Exit phase of the external process in `_run_transcode_job`. -/
inductive ExitResult where
  | code (rc : Int) (stderrText : String)
  | waitRaise (msg : String)
deriving DecidableEq, Repr

/-- The behaviour of one supervised run of `_run_transcode_job`,
describing what the filesystem and the external process do: the
output-directory creation may raise, the spawn may raise, reading may
raise after consuming a prefix of the stream, or the process runs its
stream to end-of-file and exits (or the exit wait raises). -/
inductive WorkerOutcome where
  | mkdirRaise (msg : String)
  | spawnRaise (msg : String)
  | readRaise (consumed : List WorkerLine) (msg : String)
  | runs (lines : List WorkerLine) (exit : ExitResult)
deriving DecidableEq, Repr

/-- Whether the outcome includes a successful spawn (after which
`job.process` has been assigned). -/
def spawns : WorkerOutcome → Bool
  | .mkdirRaise _ => false
  | .spawnRaise _ => false
  | .readRaise _ _ => true
  | .runs _ _ => true

/-- The message of the exception reaching the `except` clause of
`_run_transcode_job`, when one does. -/
def exnMsg : WorkerOutcome → Option String
  | .mkdirRaise m => some m
  | .spawnRaise m => some m
  | .readRaise _ m => some m
  | .runs _ (.waitRaise m) => some m
  | .runs _ (.code _ _) => none

/-- `HandBrakeService._run_transcode_job` run to completion of the
supervising task, as a function of the job record and the run's
behaviour.  The body first sets `status = "processing"`, prepares the
output directory, spawns the process, stores the handle, folds the
stdout stream into `progress`, awaits the exit code, and finishes with
`completed` (code 0) or `failed` (other codes, stderr drained into
`error`); any exception along the way reaches the `except` clause, which
sets `status = "failed"` and `error` to the exception message.  The
handle stored in `process` is never cleared. -/
def run_transcode_job (job : TranscodeJob) (w : WorkerOutcome) (pid : Nat) : TranscodeJob :=
  match w with
  | .mkdirRaise msg =>
      { job with status := "failed", error := some msg }
  | .spawnRaise msg =>
      { job with status := "failed", error := some msg }
  | .readRaise consumed msg =>
      { job with
        status := "failed"
        error := some msg
        process := some pid
        progress := runLoop job.progress consumed }
  | .runs lines (.waitRaise msg) =>
      { job with
        status := "failed"
        error := some msg
        process := some pid
        progress := runLoop job.progress lines }
  | .runs lines (.code rc stderrText) =>
      if rc = 0 then
        { job with status := "completed", process := some pid, progress := 100 }
      else
        { job with
          status := "failed"
          error := some ("HandBrakeCLI failed with code " ++ toString rc ++ ": " ++ stderrText)
          process := some pid
          progress := runLoop job.progress lines }

/-- The job record as it stands at the k-th suspension point of the
stdout read loop of `_run_transcode_job`: `status` was set to
`processing` at entry, the spawned handle has been stored, and the first
k lines of the stream have been consumed. -/
def jobDuringLoop (job : TranscodeJob) (pid : Nat) (lines : List WorkerLine) (k : Nat) :
    TranscodeJob :=
  { job with
    status := "processing"
    process := some pid
    progress := runLoop job.progress (lines.take k) }

/-- A concrete queued job record, as `transcode` creates them, used by
the concrete instantiations below. -/
def job0 : TranscodeJob :=
  { job_id := "job_1_in"
    input_path := "/in.mp4"
    output_path := "/out.mkv"
    preset := "Fast 1080p30"
    options := []
    status := "queued"
    progress := 0
    error := none
    process := none }

/-- C9: on the supervising task's control path every exception during
output-directory creation, spawning, output reading or exit handling is
caught and converted to status `failed` with `error` holding the
exception message, and a run that raises no exception ends `completed`
or `failed`; the job is never left `queued` or `processing`. -/
theorem c9_worker_exceptions (job : TranscodeJob) (w : WorkerOutcome) (pid : Nat) :
    ((run_transcode_job job w pid).status = "completed" ∨
      (run_transcode_job job w pid).status = "failed") ∧
    (∀ msg, exnMsg w = some msg →
      (run_transcode_job job w pid).status = "failed" ∧
      (run_transcode_job job w pid).error = some msg) := by
  cases w with
  | mkdirRaise m =>
    exact ⟨Or.inr rfl, fun msg h => by injection h with h; subst h; exact ⟨rfl, rfl⟩⟩
  | spawnRaise m =>
    exact ⟨Or.inr rfl, fun msg h => by injection h with h; subst h; exact ⟨rfl, rfl⟩⟩
  | readRaise consumed m =>
    exact ⟨Or.inr rfl, fun msg h => by injection h with h; subst h; exact ⟨rfl, rfl⟩⟩
  | runs lines exit =>
    cases exit with
    | waitRaise m =>
      exact ⟨Or.inr rfl, fun msg h => by injection h with h; subst h; exact ⟨rfl, rfl⟩⟩
    | code rc stderrText =>
      constructor
      · by_cases h0 : rc = 0
        · left; simp [run_transcode_job, h0]
        · right; simp [run_transcode_job, h0]
      · intro msg h
        exact absurd h (by simp [exnMsg])

/-- Witness for C9 at a concrete job and a concrete mkdir failure. -/
theorem c9_worker_exceptions_witness :
    (run_transcode_job job0 (WorkerOutcome.mkdirRaise "disk full") 7).status = "failed" ∧
    (run_transcode_job job0 (WorkerOutcome.mkdirRaise "disk full") 7).error = some "disk full" :=
  (c9_worker_exceptions job0 (WorkerOutcome.mkdirRaise "disk full") 7).2 "disk full" rfl

/-- Big-endian decimal digits of `n`, computed with explicit fuel so that
the kernel can evaluate it (`fuel ≥ n` suffices; `decChars n n` is used). -/
def decChars (fuel n : Nat) : List Nat :=
  match fuel, n with
  | _, 0 => []
  | 0, _ + 1 => []
  | f + 1, m + 1 => decChars f ((m + 1) / 10) ++ [(m + 1) % 10]

/-- The value denoted by a big-endian digit list. -/
def decValue (l : List Nat) : Nat :=
  l.foldl (fun a d => a * 10 + d) 0

/-- The ASCII character of a decimal digit. -/
def digitChar (d : Nat) : Char := Char.ofNat (48 + d)

/-- The decimal rendering of `n`, as Python `str(n)` / an f-string does. -/
def natDecimalChars (n : Nat) : List Char :=
  if n = 0 then [digitChar 0] else (decChars n n).map digitChar

/-- The job id `f"job_{len(self.jobs) + 1}_{input_path.stem}"`. -/
def mkJobId (n : Nat) (stem : String) : String :=
  String.mk ("job_".data ++ natDecimalChars n ++ ('_' :: stem.data))

theorem decValue_append_digit (l : List Nat) (d : Nat) :
    decValue (l ++ [d]) = decValue l * 10 + d := by
  simp [decValue, List.foldl_append]

theorem decValue_decChars : ∀ fuel n, n ≤ fuel → decValue (decChars fuel n) = n := by
  intro fuel
  induction fuel with
  | zero =>
    intro n hn
    interval_cases n
    simp [decChars, decValue]
  | succ f ih =>
    intro n hn
    cases n with
    | zero => simp [decChars, decValue]
    | succ m =>
      have hdiv : (m + 1) / 10 ≤ f := by
        have := Nat.div_lt_self (Nat.succ_pos m) (by norm_num : 1 < 10)
        omega
      calc decValue (decChars (f + 1) (m + 1))
          = decValue (decChars f ((m + 1) / 10) ++ [(m + 1) % 10]) := by rw [decChars]
        _ = decValue (decChars f ((m + 1) / 10)) * 10 + (m + 1) % 10 :=
            decValue_append_digit _ _
        _ = (m + 1) / 10 * 10 + (m + 1) % 10 := by rw [ih _ hdiv]
        _ = m + 1 := by omega

theorem mem_decChars_lt : ∀ fuel n d, d ∈ decChars fuel n → d < 10 := by
  intro fuel
  induction fuel with
  | zero =>
    intro n d h
    cases n <;> simp [decChars] at h
  | succ f ih =>
    intro n d h
    cases n with
    | zero => simp [decChars] at h
    | succ m =>
      rw [decChars] at h
      rcases List.mem_append.mp h with h | h
      · exact ih _ _ h
      · simp only [List.mem_singleton] at h
        subst h
        exact Nat.mod_lt _ (by norm_num)

theorem digitChar_injOn {d1 d2 : Nat} (h1 : d1 < 10) (h2 : d2 < 10)
    (h : digitChar d1 = digitChar d2) : d1 = d2 := by
  interval_cases d1 <;> interval_cases d2 <;> revert h <;> decide

theorem digitChar_isDigit {d : Nat} (h : d < 10) : (digitChar d).isDigit = true := by
  interval_cases d <;> decide

theorem map_digitChar_inj :
    ∀ l1 l2 : List Nat, (∀ d ∈ l1, d < 10) → (∀ d ∈ l2, d < 10) →
      l1.map digitChar = l2.map digitChar → l1 = l2 := by
  intro l1
  induction l1 with
  | nil => intro l2 _ _ h; cases l2 <;> simp_all
  | cons d t ih =>
    intro l2 h1 h2 h
    cases l2 with
    | nil => simp at h
    | cons d2 t2 =>
      simp only [List.map_cons, List.cons.injEq] at h
      have hd := digitChar_injOn (h1 d (by simp)) (h2 d2 (by simp)) h.1
      have ht := ih t2 (fun x hx => h1 x (by simp [hx])) (fun x hx => h2 x (by simp [hx])) h.2
      rw [hd, ht]

theorem natDecimalChars_inj {n1 n2 : Nat} (h : natDecimalChars n1 = natDecimalChars n2) :
    n1 = n2 := by
  unfold natDecimalChars at h
  by_cases e1 : n1 = 0 <;> by_cases e2 : n2 = 0
  · omega
  · rw [if_pos e1, if_neg e2] at h
    have : [0] = decChars n2 n2 :=
      map_digitChar_inj [0] _ (by simp) (fun d hd => mem_decChars_lt _ _ _ hd) (by simpa using h)
    have h2 := decValue_decChars n2 n2 le_rfl
    rw [← this] at h2
    simp [decValue] at h2
    omega
  · rw [if_neg e1, if_pos e2] at h
    have : decChars n1 n1 = [0] :=
      map_digitChar_inj _ [0] (fun d hd => mem_decChars_lt _ _ _ hd) (by simp) (by simpa using h)
    have h1 := decValue_decChars n1 n1 le_rfl
    rw [this] at h1
    simp [decValue] at h1
    omega
  · rw [if_neg e1, if_neg e2] at h
    have heq := map_digitChar_inj _ _ (fun d hd => mem_decChars_lt _ _ _ hd)
      (fun d hd => mem_decChars_lt _ _ _ hd) h
    have h1 := decValue_decChars n1 n1 le_rfl
    have h2 := decValue_decChars n2 n2 le_rfl
    rw [heq] at h1
    omega

theorem natDecimalChars_digit {n : Nat} : ∀ c ∈ natDecimalChars n, c.isDigit = true := by
  intro c hc
  unfold natDecimalChars at hc
  split at hc
  · simp only [List.mem_singleton] at hc
    subst hc
    decide
  · rcases List.mem_map.mp hc with ⟨d, hd, rfl⟩
    exact digitChar_isDigit (mem_decChars_lt _ _ _ hd)

theorem digit_run_cancel :
    ∀ l1 l2 r1 r2 : List Char, (∀ c ∈ l1, c.isDigit = true) → (∀ c ∈ l2, c.isDigit = true) →
      l1 ++ '_' :: r1 = l2 ++ '_' :: r2 → l1 = l2 := by
  intro l1
  induction l1 with
  | nil =>
    intro l2 r1 r2 _ h2 h
    cases l2 with
    | nil => rfl
    | cons c t =>
      simp only [List.nil_append, List.cons_append, List.cons.injEq] at h
      have := h2 c (by simp)
      rw [← h.1] at this
      exact absurd this (by decide)
  | cons c t ih =>
    intro l2 r1 r2 h1 h2 h
    cases l2 with
    | nil =>
      simp only [List.nil_append, List.cons_append, List.cons.injEq] at h
      have := h1 c (by simp)
      rw [h.1] at this
      exact absurd this (by decide)
    | cons c2 t2 =>
      simp only [List.cons_append, List.cons.injEq] at h
      have := ih t2 r1 r2 (fun x hx => h1 x (by simp [hx])) (fun x hx => h2 x (by simp [hx])) h.2
      rw [h.1, this]

theorem mkJobId_inj_nat {n1 n2 : Nat} {s1 s2 : String}
    (h : mkJobId n1 s1 = mkJobId n2 s2) : n1 = n2 := by
  unfold mkJobId at h
  injection h with h
  rw [List.append_assoc, List.append_assoc] at h
  have h' := List.append_cancel_left h
  exact natDecimalChars_inj
    (digit_run_cancel _ _ _ _ (natDecimalChars_digit) (natDecimalChars_digit) h')

/-- `Path.stem`: the final component's name without its suffix. -/
def stemOfName (name : String) : String :=
  String.mk (name.data.take (name.data.length - (suffixOfName name).data.length))

/-- `preset or settings.default_preset` (Python truthiness: the empty
string counts as absent). -/
def presetOrDefault : Option String → String
  | some p => if p = "" then defaultPreset else p
  | none => defaultPreset

/-- The condition of `if preset and preset not in await self.get_presets()`. -/
def invalidPresetReq (presets : List String) : Option String → Prop
  | some p => p ≠ "" ∧ p ∉ presets
  | none => False

instance (presets : List String) (op : Option String) : Decidable (invalidPresetReq presets op) :=
  match op with
  | some p => (inferInstance : Decidable (p ≠ "" ∧ p ∉ presets))
  | none => isFalse (fun h => h)

/-- The environment a `transcode` call runs against: filesystem oracles
(queried at resolved paths), the outcome of `_check_system_resources`
(`some msg` models the `ValueError` it raises, `none` that all its
best-effort checks pass), the preset list `get_presets` returns, and the
working directory `Path.resolve()` anchors relative paths at. -/
structure Env where
  isFile : String → Bool
  fileExists : String → Bool
  fileSize : String → Nat
  resourceErr : Option String
  presets : List String
  cwd : List String

/-- The mutable state of `HandBrakeService`: the job registry. -/
structure ServiceState where
  jobs : JobMap
deriving DecidableEq, Repr

/-- A `transcode` request. -/
structure Request where
  input_path : String
  output_path : String
  preset : Option String
  options : List (String × OptValue)

/-- `len([job for job in self.jobs.values() if job.status == "processing"])`. -/
def countProcessing (jobs : JobMap) : Nat :=
  (jobs.filter (fun kv => kv.2.status == "processing")).length

/-- The fresh job id allocated by `transcode`:
`f"job_{len(self.jobs) + 1}_{input_path.stem}"`. -/
def newJobId (env : Env) (st : ServiceState) (req : Request) : String :=
  mkJobId (st.jobs.length + 1)
    (stemOfName (lastComponent (resolvePath env.cwd req.input_path)))

/-- The `TranscodeJob` record `transcode` creates and stores. -/
def newJob (env : Env) (st : ServiceState) (req : Request) (inp outp : String) : TranscodeJob :=
  { job_id := newJobId env st req
    input_path := inp
    output_path := outp
    preset := presetOrDefault req.preset
    options := sanitizeOptions req.options
    status := "queued"
    progress := 0
    error := none
    process := none }

/-- `HandBrakeService.transcode`.  Checks run in source order: path
validation for both paths, input existence, the 10 GiB and 1024-byte
size bounds, the concurrency ceiling of `_max_concurrent_jobs = 5`
(count of jobs whose status is `processing`), `_check_system_resources`,
preset validation (only when a non-empty preset was passed), then option
sanitization, id allocation and storage of the `queued` job.  The
`asyncio.create_task` hand-off runs the worker after this function has
returned, so it is modelled as the separate `run_transcode_job` step. -/
def transcode (env : Env) (st : ServiceState) (req : Request) :
    Except TranscodeError (String × ServiceState) :=
  match validateAndSecurePath env.isFile env.cwd req.input_path with
  | .error e => .error e
  | .ok inputPath =>
    match validateAndSecurePath env.isFile env.cwd req.output_path with
    | .error e => .error e
    | .ok outputPath =>
      if env.fileExists inputPath = false then
        Except.error (TranscodeError.fileNotFound inputPath)
      else if env.fileSize inputPath > 10 * 1024 * 1024 * 1024 then
        Except.error (TranscodeError.fileTooLarge (env.fileSize inputPath))
      else if env.fileSize inputPath < 1024 then
        Except.error (TranscodeError.fileTooSmall (env.fileSize inputPath))
      else if 5 ≤ countProcessing st.jobs then
        Except.error TranscodeError.maxConcurrentReached
      else
        match env.resourceErr with
        | some msg => Except.error (TranscodeError.resource msg)
        | none =>
          if invalidPresetReq env.presets req.preset then
            Except.error (TranscodeError.invalidPreset ((req.preset).getD ""))
          else
            Except.ok (newJobId env st req,
              ⟨setJob st.jobs (newJobId env st req) (newJob env st req inputPath outputPath)⟩)

/-- The registry as the caller sees it after a `transcode` call: an
error leaves `self.jobs` untouched. -/
def stateAfter (env : Env) (st : ServiceState) (req : Request) : ServiceState :=
  match transcode env st req with
  | .ok p => p.2
  | .error _ => st

/-- The job ids returned by a sequence of `transcode` calls (failed calls
return no id). -/
def traceIds (env : Env) : ServiceState → List Request → List String
  | _, [] => []
  | st, r :: rs =>
    match transcode env st r with
    | .ok p => p.1 :: traceIds env p.2 rs
    | .error _ => traceIds env st rs

theorem lookupJob_setJob_self : ∀ (jobs : JobMap) (id : String) (j : TranscodeJob),
    lookupJob (setJob jobs id j) id = some j := by
  intro jobs
  induction jobs with
  | nil => intro id j; simp [setJob, lookupJob]
  | cons kv rest ih =>
    intro id j
    obtain ⟨k, j0⟩ := kv
    by_cases hk : k = id
    · simp [setJob, hk, lookupJob]
    · simp [setJob, hk, lookupJob, ih]

theorem setJob_fresh : ∀ (jobs : JobMap) (id : String) (j : TranscodeJob),
    lookupJob jobs id = none → setJob jobs id j = jobs ++ [(id, j)] := by
  intro jobs
  induction jobs with
  | nil => intro id j _; simp [setJob]
  | cons kv rest ih =>
    intro id j h
    obtain ⟨k, j0⟩ := kv
    by_cases hk : k = id
    · simp [lookupJob, hk] at h
    · simp only [lookupJob, if_neg hk] at h
      simp [setJob, hk, ih _ _ h]

theorem lookupJob_none_of_forall : ∀ (jobs : JobMap) (id : String),
    (∀ kv ∈ jobs, kv.1 ≠ id) → lookupJob jobs id = none := by
  intro jobs
  induction jobs with
  | nil => intro id _; rfl
  | cons kv rest ih =>
    intro id h
    obtain ⟨k, j0⟩ := kv
    have hk : k ≠ id := h (k, j0) (by simp)
    simp only [lookupJob, if_neg hk]
    exact ih id (fun kv hkv => h kv (by simp [hkv]))

/-- Registry states whose keys were all allocated by `mkJobId` with an
index between 1 and the registry size (true of every state reachable by
`transcode` calls from the empty registry). -/
def GoodState (st : ServiceState) : Prop :=
  ∀ kv ∈ st.jobs, ∃ k stem, 1 ≤ k ∧ k ≤ st.jobs.length ∧ kv.1 = mkJobId k stem

theorem goodState_fresh {st : ServiceState} (hg : GoodState st) (stem : String) :
    lookupJob st.jobs (mkJobId (st.jobs.length + 1) stem) = none := by
  apply lookupJob_none_of_forall
  intro kv hkv heq
  obtain ⟨k, s, h1, h2, h3⟩ := hg kv hkv
  rw [h3] at heq
  have := mkJobId_inj_nat heq
  omega

theorem transcode_ok_shape {env : Env} {st : ServiceState} {req : Request} {id : String}
    {st' : ServiceState} (h : transcode env st req = Except.ok (id, st')) :
    id = newJobId env st req ∧
      ∃ inp outp, st'.jobs = setJob st.jobs id (newJob env st req inp outp) := by
  unfold transcode at h
  cases hv1 : validateAndSecurePath env.isFile env.cwd req.input_path with
  | error e => rw [hv1] at h; simp at h
  | ok inp =>
    rw [hv1] at h
    cases hv2 : validateAndSecurePath env.isFile env.cwd req.output_path with
    | error e => rw [hv2] at h; exact Except.noConfusion h
    | ok outp =>
      rw [hv2] at h
      repeat' split at h
      all_goals try exact Except.noConfusion h
      all_goals simp only [Except.ok.injEq, Prod.mk.injEq] at h
      all_goals obtain ⟨hid, hst⟩ := h
      all_goals exact ⟨hid.symm, _, _, by rw [← hst, ← hid]⟩

theorem transcode_ok_good {env : Env} {st : ServiceState} {req : Request} {id : String}
    {st' : ServiceState} (hg : GoodState st) (h : transcode env st req = Except.ok (id, st')) :
    GoodState st' ∧ st'.jobs.length = st.jobs.length + 1 ∧ lookupJob st.jobs id = none := by
  obtain ⟨hid, inp, outp, hjobs⟩ := transcode_ok_shape h
  have hfresh : lookupJob st.jobs id = none := by
    rw [hid]; exact goodState_fresh hg _
  have happ : st'.jobs = st.jobs ++ [(id, newJob env st req inp outp)] := by
    rw [hjobs]; exact setJob_fresh _ _ _ hfresh
  have hlen : st'.jobs.length = st.jobs.length + 1 := by simp [happ]
  refine ⟨?_, hlen, hfresh⟩
  intro kv hkv
  rw [happ] at hkv
  rcases List.mem_append.mp hkv with hold | hnew
  · obtain ⟨k, s, h1, h2, h3⟩ := hg kv hold
    exact ⟨k, s, h1, by omega, h3⟩
  · simp only [List.mem_singleton] at hnew
    subst hnew
    exact ⟨st.jobs.length + 1, _, by omega, by omega, hid⟩

theorem traceIds_spec (env : Env) : ∀ (reqs : List Request) (st : ServiceState), GoodState st →
    (∀ id ∈ traceIds env st reqs, ∃ k stem, st.jobs.length < k ∧ id = mkJobId k stem) ∧
      (traceIds env st reqs).Nodup := by
  intro reqs
  induction reqs with
  | nil => intro st _; simp [traceIds]
  | cons r rs ih =>
    intro st hg
    unfold traceIds
    cases htr : transcode env st r with
    | error e => exact ih st hg
    | ok p =>
      obtain ⟨id, st'⟩ := p
      obtain ⟨hg', hlen, _⟩ := transcode_ok_good hg htr
      obtain ⟨hbound, hnodup⟩ := ih st' hg'
      obtain ⟨hid, _⟩ := transcode_ok_shape htr
      constructor
      · intro x hx
        rcases List.mem_cons.mp hx with rfl | hx
        · exact ⟨st.jobs.length + 1, _, by omega, hid⟩
        · obtain ⟨k, s, hk, he⟩ := hbound x hx
          exact ⟨k, s, by omega, he⟩
      · refine List.nodup_cons.mpr ⟨?_, hnodup⟩
        intro hmem
        obtain ⟨k, s, hk, he⟩ := hbound id hmem
        rw [hid] at he
        unfold newJobId at he
        have := mkJobId_inj_nat he
        omega

/-- A concrete environment: `/in.mp4` is an existing 2048-byte file,
resource checks pass, and the preset list is the default one. -/
def envW : Env :=
  { isFile := fun s => s == "/in.mp4"
    fileExists := fun s => s == "/in.mp4"
    fileSize := fun _ => 2048
    resourceErr := none
    presets := ["Fast 1080p30"]
    cwd := [] }

/-- A concrete valid request. -/
def reqW : Request :=
  { input_path := "/in.mp4", output_path := "/out.mkv", preset := none, options := [] }

/-- A job record in `processing` status, for populating concrete registries. -/
def procJob : TranscodeJob :=
  { job0 with status := "processing" }

/-- A registry holding five `processing` jobs (the default ceiling). -/
def st5 : ServiceState :=
  ⟨[("a", procJob), ("b", procJob), ("c", procJob), ("d", procJob), ("e", procJob)]⟩

/-- C7: when the registry holds 5 `processing` jobs (the default
`_max_concurrent_jobs` ceiling), a `transcode` call whose inputs pass the
earlier validation steps is rejected with the resource-exhaustion error
(`ValueError` about maximum concurrent jobs), creates no job, and leaves
the registry unchanged. -/
theorem c7_concurrency_gate (env : Env) (st : ServiceState) (req : Request) (inp outp : String)
    (hin : validateAndSecurePath env.isFile env.cwd req.input_path = Except.ok inp)
    (hout : validateAndSecurePath env.isFile env.cwd req.output_path = Except.ok outp)
    (hex : env.fileExists inp = true)
    (hbig : env.fileSize inp ≤ 10 * 1024 * 1024 * 1024)
    (hsmall : 1024 ≤ env.fileSize inp)
    (hproc : countProcessing st.jobs = 5) :
    transcode env st req = Except.error TranscodeError.maxConcurrentReached ∧
      stateAfter env st req = st := by
  have h1 : transcode env st req = Except.error TranscodeError.maxConcurrentReached := by
    unfold transcode
    rw [hin, hout]
    dsimp only
    rw [if_neg (by rw [hex]; simp), if_neg (by omega), if_neg (by omega), if_pos (by omega)]
  refine ⟨h1, ?_⟩
  unfold stateAfter
  rw [h1]

/-- Witness for C7: a valid request against a registry already running
five jobs. -/
theorem c7_concurrency_gate_witness :
    transcode envW st5 reqW = Except.error TranscodeError.maxConcurrentReached ∧
      stateAfter envW st5 reqW = st5 :=
  c7_concurrency_gate envW st5 reqW "/in.mp4" "/out.mkv" (by rfl) (by rfl) (by rfl)
    (by norm_num [envW]) (by norm_num [envW]) (by rfl)

/-- C8: a successful `transcode` call returns a job id under which an
immediate `get_job_status` finds a job with status `queued`; and along
any sequence of `transcode` calls starting from the empty registry, the
ids returned by the successful calls are pairwise distinct (ids embed
`len(self.jobs) + 1`, the registry never shrinks, and `mkJobId` is
injective in that counter). -/
theorem c8_fresh_ids_and_queued :
    (∀ (env : Env) (st : ServiceState) (req : Request) (id : String) (st' : ServiceState),
        transcode env st req = Except.ok (id, st') →
        (get_job_status st'.jobs id).map TranscodeJob.status = some "queued") ∧
    (∀ (env : Env) (reqs : List Request), (traceIds env ⟨[]⟩ reqs).Nodup) := by
  constructor
  · intro env st req id st' h
    obtain ⟨hid, inp, outp, hjobs⟩ := transcode_ok_shape h
    unfold get_job_status
    rw [hjobs, lookupJob_setJob_self]
    rfl
  · intro env reqs
    exact (traceIds_spec env reqs ⟨[]⟩ (by intro kv hkv; simp at hkv)).2

/-- Witness for C8 at a concrete successful call on the empty registry. -/
theorem c8_fresh_ids_and_queued_witness :
    (get_job_status
        (ServiceState.mk (setJob [] "job_1_in" (newJob envW ⟨[]⟩ reqW "/in.mp4" "/out.mkv"))).jobs
        "job_1_in").map TranscodeJob.status = some "queued" :=
  c8_fresh_ids_and_queued.1 envW ⟨[]⟩ reqW "job_1_in"
    (ServiceState.mk (setJob [] "job_1_in" (newJob envW ⟨[]⟩ reqW "/in.mp4" "/out.mkv")))
    (by rfl)

theorem obsList_head (p : ℚ) (ls : List WorkerLine) : (obsList p ls).head? = some p := by
  cases ls <;> rfl

/-- C6 counterexample: the read loop copies each parsed `Progress` value
verbatim, so a worker stream emitting 50 and then 25 makes the job's
progress drop from 50 to 25 between two successive observations while
the status is `processing`. -/
theorem c6_counterexample :
    (jobDuringLoop job0 7 [some 50, some 25] 1).status = "processing" ∧
      (jobDuringLoop job0 7 [some 50, some 25] 2).status = "processing" ∧
      (jobDuringLoop job0 7 [some 50, some 25] 1).progress = 50 ∧
      (jobDuringLoop job0 7 [some 50, some 25] 2).progress = 25 ∧
      (jobDuringLoop job0 7 [some 50, some 25] 2).progress <
        (jobDuringLoop job0 7 [some 50, some 25] 1).progress :=
  ⟨rfl, rfl, rfl, rfl, by
    show (25 : ℚ) < 50
    norm_num⟩

/-- C6 amended: the loop enforces no monotonicity of its own — it copies
each parsed `Progress` value into `job.progress` — so the successive
observations of `progress` during `processing` are non-decreasing
exactly when the parsed values arriving from the worker are themselves
non-decreasing, starting at or above the job's progress at loop entry. -/
theorem c6_progress_monotone (p0 : ℚ) (lines : List WorkerLine)
    (h : List.Chain' (· ≤ ·) (p0 :: lines.filterMap id)) :
    List.Chain' (· ≤ ·) (obsList p0 lines) := by
  induction lines generalizing p0 with
  | nil => simp [obsList]
  | cons l ls ih =>
    cases l with
    | none =>
      rw [obsList]
      simp only [Option.getD_none]
      refine List.chain'_cons'.mpr ⟨?_, ih p0 (by simpa using h)⟩
      intro y hy
      rw [obsList_head] at hy
      simp only [Option.mem_def, Option.some.injEq] at hy
      exact hy ▸ le_refl p0
    | some v =>
      rw [obsList]
      simp only [Option.getD_some]
      obtain ⟨hpv, htail⟩ := List.chain'_cons.mp (by simpa using h)
      refine List.chain'_cons'.mpr ⟨?_, ih v htail⟩
      intro y hy
      rw [obsList_head] at hy
      simp only [Option.mem_def, Option.some.injEq] at hy
      exact hy ▸ hpv

/-- Witness for the amended C6 on a non-decreasing stream with noise. -/
theorem c6_progress_monotone_witness :
    List.Chain' (· ≤ ·) (obsList 0 [some 25, none, some 100]) :=
  c6_progress_monotone 0 [some 25, none, some 100] (by
    refine List.chain'_cons.mpr ⟨by norm_num, ?_⟩
    refine List.chain'_cons.mpr ⟨by norm_num, ?_⟩
    exact List.chain'_singleton _)

theorem cancel_job_eq_false_of_none {jobs : JobMap} {id : String} {j : TranscodeJob}
    (hj : lookupJob jobs id = some j) (hp : j.process = none) :
    cancel_job jobs id = (false, jobs) := by
  unfold cancel_job
  rw [hj]
  dsimp only
  rw [hp]

theorem cancel_job_eq_true_of_some {jobs : JobMap} {id : String} {j : TranscodeJob} {p : Nat}
    (hj : lookupJob jobs id = some j) (hp : j.process = some p) :
    cancel_job jobs id = (true, setJob jobs id { j with status := "cancelled" }) := by
  unfold cancel_job
  rw [hj]
  dsimp only
  rw [hp]

/-- The registry right after the concrete `transcode` call on the empty
registry (one `queued` job under id `job_1_in`). -/
def stQ : ServiceState := stateAfter envW ⟨[]⟩ reqW

/-- The `job_1_in` record after its worker run completed normally: the
process (pid 7) streamed one progress line and exited 0.  Its `process`
field still holds the handle, since `_run_transcode_job` never clears it. -/
def jobDone : TranscodeJob :=
  run_transcode_job (newJob envW ⟨[]⟩ reqW "/in.mp4" "/out.mkv")
    (WorkerOutcome.runs [some 100] (ExitResult.code 0 "")) 7

/-- The registry after that worker run (the worker mutates the stored
record in place). -/
def stDone : ServiceState := ⟨setJob stQ.jobs "job_1_in" jobDone⟩

/-- C1 counterexample: a job reached `completed` through a real
`transcode` call followed by a normal worker run, yet `cancel_job`
returns `true` on it — not `false` — and overwrites its terminal status
with `cancelled`, because the `process` handle is never cleared on exit. -/
theorem c1_counterexample :
    transcode envW ⟨[]⟩ reqW = Except.ok ("job_1_in", stQ) ∧
      jobDone.status = "completed" ∧
      (cancel_job stDone.jobs "job_1_in").1 = true ∧
      lookupJob (cancel_job stDone.jobs "job_1_in").2 "job_1_in" =
        some { jobDone with status := "cancelled" } :=
  ⟨rfl, rfl, rfl, rfl⟩

/-- C1 amended: `cancel_job` returns `false` exactly when the job is
absent or its `process` field is `None`; otherwise — including for jobs
already in a terminal status, whose handle is never cleared — it
terminates the process (gracefully, escalating to a kill after the 5
second grace period), sets the status to `cancelled`, and returns
`true`.  A job in a terminal status that never spawned a process (e.g.
failed before the spawn) yields `false`; one that did spawn yields
`true`. -/
theorem c1_cancel_spec (jobs : JobMap) (id : String) :
    (lookupJob jobs id = none → cancel_job jobs id = (false, jobs)) ∧
    (∀ j, lookupJob jobs id = some j → j.process = none →
      cancel_job jobs id = (false, jobs)) ∧
    (∀ j p, lookupJob jobs id = some j → j.process = some p →
      cancel_job jobs id = (true, setJob jobs id { j with status := "cancelled" })) := by
  refine ⟨fun h => ?_, fun j hj hp => ?_, fun j p hj hp => ?_⟩
  · unfold cancel_job
    rw [h]
  · exact cancel_job_eq_false_of_none hj hp
  · exact cancel_job_eq_true_of_some hj hp

/-- Witness for the amended C1: cancelling the completed `job_1_in`
(whose stale handle is still present) yields `true` and `cancelled`. -/
theorem c1_cancel_spec_witness :
    cancel_job stDone.jobs "job_1_in" =
      (true, setJob stDone.jobs "job_1_in" { jobDone with status := "cancelled" }) :=
  (c1_cancel_spec stDone.jobs "job_1_in").2.2 jobDone 7 rfl rfl

/-- C2 counterexample: `job_1_in` is terminal (`completed`), yet the
subsequent `cancel_job` operation changes its status to `cancelled`. -/
theorem c2_counterexample :
    isTerminal jobDone.status ∧
      get_job_status stDone.jobs "job_1_in" = some jobDone ∧
      jobDone.status = "completed" ∧
      (lookupJob (cancel_job stDone.jobs "job_1_in").2 "job_1_in").map TranscodeJob.status =
        some "cancelled" :=
  ⟨Or.inl rfl, rfl, rfl, rfl⟩

/-- C3 counterexample: after a reachable normal completion the job's
`process` field still holds the handle although the status is
`completed` — the claimed equivalence (handle present iff status is
`queued`/`processing` with a spawned process) fails, because nothing
ever clears the field. -/
theorem c3_counterexample :
    transcode envW ⟨[]⟩ reqW = Except.ok ("job_1_in", stQ) ∧
      jobDone.process = some 7 ∧
      ¬ (jobDone.status = "queued" ∨ jobDone.status = "processing") :=
  ⟨rfl, rfl, by
    intro h
    rcases h with h | h <;> exact absurd h (by decide)⟩

/-- C3 amended: the `process` field is non-null exactly when the worker
run has spawned the external process: it is `None` on the freshly created
job, `_run_transcode_job` stores the handle precisely when its spawn
succeeded, and neither process exit nor `cancel_job` ever clears it — so
a non-null handle persists into the terminal statuses instead of being
confined to `queued`/`processing`. -/
theorem c3_handle_iff_spawned :
    (∀ (env : Env) (st : ServiceState) (req : Request) (inp outp : String),
        (newJob env st req inp outp).process = none) ∧
    (∀ (job : TranscodeJob) (w : WorkerOutcome) (pid : Nat),
        (run_transcode_job job w pid).process =
          if spawns w then some pid else job.process) ∧
    (∀ (jobs : JobMap) (id : String) (j : TranscodeJob), lookupJob jobs id = some j →
        ∃ j', lookupJob (cancel_job jobs id).2 id = some j' ∧ j'.process = j.process) := by
  refine ⟨fun _ _ _ _ _ => rfl, fun job w pid => ?_, fun jobs id j hj => ?_⟩
  · cases w with
    | mkdirRaise m => rfl
    | spawnRaise m => rfl
    | readRaise consumed m => rfl
    | runs lines exit =>
      cases exit with
      | waitRaise m => rfl
      | code rc stderrText =>
        by_cases h0 : rc = 0 <;> simp [run_transcode_job, spawns, h0]
  · cases hp : j.process with
    | none =>
      rw [cancel_job_eq_false_of_none hj hp]
      exact ⟨j, hj, hp⟩
    | some p =>
      rw [cancel_job_eq_true_of_some hj hp]
      exact ⟨{ j with status := "cancelled" }, lookupJob_setJob_self _ _ _, hp⟩

/-- Witness for the amended C3: a worker run stores the spawned handle. -/
theorem c3_handle_iff_spawned_witness :
    (run_transcode_job job0 (WorkerOutcome.runs [] (ExitResult.code 0 "")) 7).process =
      if spawns (WorkerOutcome.runs [] (ExitResult.code 0 "")) then some 7 else job0.process :=
  c3_handle_iff_spawned.2.1 job0 (WorkerOutcome.runs [] (ExitResult.code 0 "")) 7

/-- Program counter of the supervising coroutine of `_run_transcode_job`
for one job, with one position per suspension point (`await`): the task
has been created but not yet scheduled; the first atomic block (set
`status = "processing"`, make the output directory, build the command)
has run and the spawn is awaited; the handle is stored and the next
stdout line is awaited with `pending` lines still to come; end-of-stream
was seen and the exit code is awaited; a non-zero code was seen and
stderr is awaited; or the coroutine has finished. -/
inductive Wpc where
  | created
  | spawning
  | reading (pending : List WorkerLine)
  | waitingExit
  | readingStderr (rc : Int)
  | done
deriving DecidableEq, Repr

/-- The interleaving state of one job: its record (shared with readers
and with `cancel_job`) and the worker coroutine's position. -/
structure JobSysState where
  job : TranscodeJob
  pc : Wpc
deriving DecidableEq, Repr

/-- Operations interleaved by the event loop, as observed on one job. -/
inductive OpLabel where
  | workerStep
  | cancelCall (returned : Bool)
  | statusQuery
deriving DecidableEq, Repr

/-- Small-step semantics of `_run_transcode_job` interleaved with
`cancel_job` calls and status queries on the same job.  Each worker step
is one atomic block between awaits; `Fail` variants are the exception
paths landing in the `except` clause.  A cancel call on a job whose
`process` field is `None` returns False and changes nothing (its only
suspensions occur after the handle test); one on a job with a handle
terminates the process and sets `status = "cancelled"`, returning True. -/
inductive Step : JobSysState → OpLabel → JobSysState → Prop where
  | startOk (s : JobSysState) (h : s.pc = Wpc.created) :
      Step s OpLabel.workerStep ⟨{ s.job with status := "processing" }, Wpc.spawning⟩
  | startFail (s : JobSysState) (msg : String) (h : s.pc = Wpc.created) :
      Step s OpLabel.workerStep
        ⟨{ s.job with status := "failed", error := some msg }, Wpc.done⟩
  | spawnOk (s : JobSysState) (pid : Nat) (lines : List WorkerLine) (h : s.pc = Wpc.spawning) :
      Step s OpLabel.workerStep ⟨{ s.job with process := some pid }, Wpc.reading lines⟩
  | spawnFail (s : JobSysState) (msg : String) (h : s.pc = Wpc.spawning) :
      Step s OpLabel.workerStep
        ⟨{ s.job with status := "failed", error := some msg }, Wpc.done⟩
  | readLine (s : JobSysState) (l : WorkerLine) (rest : List WorkerLine)
      (h : s.pc = Wpc.reading (l :: rest)) :
      Step s OpLabel.workerStep
        ⟨{ s.job with progress := l.getD s.job.progress }, Wpc.reading rest⟩
  | readFail (s : JobSysState) (msg : String) (pending : List WorkerLine)
      (h : s.pc = Wpc.reading pending) :
      Step s OpLabel.workerStep
        ⟨{ s.job with status := "failed", error := some msg }, Wpc.done⟩
  | readEOF (s : JobSysState) (h : s.pc = Wpc.reading []) :
      Step s OpLabel.workerStep ⟨s.job, Wpc.waitingExit⟩
  | exitZero (s : JobSysState) (h : s.pc = Wpc.waitingExit) :
      Step s OpLabel.workerStep
        ⟨{ s.job with status := "completed", progress := 100 }, Wpc.done⟩
  | exitNonzero (s : JobSysState) (rc : Int) (hrc : rc ≠ 0) (h : s.pc = Wpc.waitingExit) :
      Step s OpLabel.workerStep ⟨s.job, Wpc.readingStderr rc⟩
  | waitFail (s : JobSysState) (msg : String) (h : s.pc = Wpc.waitingExit) :
      Step s OpLabel.workerStep
        ⟨{ s.job with status := "failed", error := some msg }, Wpc.done⟩
  | stderrDone (s : JobSysState) (rc : Int) (txt : String) (h : s.pc = Wpc.readingStderr rc) :
      Step s OpLabel.workerStep
        ⟨{ s.job with
            status := "failed"
            error := some ("HandBrakeCLI failed with code " ++ toString rc ++ ": " ++ txt) },
          Wpc.done⟩
  | cancelNoProc (s : JobSysState) (h : s.job.process = none) :
      Step s (OpLabel.cancelCall false) s
  | cancelProc (s : JobSysState) (p : Nat) (h : s.job.process = some p) :
      Step s (OpLabel.cancelCall true) ⟨{ s.job with status := "cancelled" }, s.pc⟩
  | query (s : JobSysState) :
      Step s OpLabel.statusQuery s

/-- The state right after `transcode` stored the job and created the
worker task. -/
def initState (job : TranscodeJob) : JobSysState := ⟨job, Wpc.created⟩

/-- Reachability by interleaved worker, cancel and query steps. -/
def Reaches (s0 s : JobSysState) : Prop :=
  Relation.ReflTransGen (fun a b => ∃ l, Step a l b) s0 s

/-- The inductive invariant: a job still reads `queued` only before its
worker coroutine has run at all, and until the spawn block has stored the
handle, the `process` field is `None`. -/
def SysInv (s : JobSysState) : Prop :=
  (s.job.status = "queued" → s.pc = Wpc.created) ∧
  (s.pc = Wpc.created ∨ s.pc = Wpc.spawning → s.job.process = none)

theorem step_preserves_inv {s s' : JobSysState} {l : OpLabel}
    (hinv : SysInv s) (hs : Step s l s') : SysInv s' := by
  obtain ⟨h1, h2⟩ := hinv
  cases hs with
  | startOk h =>
    exact ⟨fun hq => absurd (show ("processing" : String) = "queued" from hq) (by decide),
      fun _ => h2 (Or.inl h)⟩
  | startFail msg h =>
    refine ⟨fun hq => absurd (show ("failed" : String) = "queued" from hq) (by decide),
      fun hpc => ?_⟩
    rcases hpc with hpc | hpc <;> exact Wpc.noConfusion hpc
  | spawnOk pid lines h =>
    refine ⟨fun hq => ?_, fun hpc => ?_⟩
    · have h3 := h1 hq
      rw [h] at h3
      exact Wpc.noConfusion h3
    · rcases hpc with hpc | hpc <;> exact Wpc.noConfusion hpc
  | spawnFail msg h =>
    refine ⟨fun hq => absurd (show ("failed" : String) = "queued" from hq) (by decide),
      fun hpc => ?_⟩
    rcases hpc with hpc | hpc <;> exact Wpc.noConfusion hpc
  | readLine l rest h =>
    refine ⟨fun hq => ?_, fun hpc => ?_⟩
    · have h3 := h1 hq
      rw [h] at h3
      exact Wpc.noConfusion h3
    · rcases hpc with hpc | hpc <;> exact Wpc.noConfusion hpc
  | readFail msg pending h =>
    refine ⟨fun hq => absurd (show ("failed" : String) = "queued" from hq) (by decide),
      fun hpc => ?_⟩
    rcases hpc with hpc | hpc <;> exact Wpc.noConfusion hpc
  | readEOF h =>
    refine ⟨fun hq => ?_, fun hpc => ?_⟩
    · have h3 := h1 hq
      rw [h] at h3
      exact Wpc.noConfusion h3
    · rcases hpc with hpc | hpc <;> exact Wpc.noConfusion hpc
  | exitZero h =>
    refine ⟨fun hq => absurd (show ("completed" : String) = "queued" from hq) (by decide),
      fun hpc => ?_⟩
    rcases hpc with hpc | hpc <;> exact Wpc.noConfusion hpc
  | exitNonzero rc hrc h =>
    refine ⟨fun hq => ?_, fun hpc => ?_⟩
    · have h3 := h1 hq
      rw [h] at h3
      exact Wpc.noConfusion h3
    · rcases hpc with hpc | hpc <;> exact Wpc.noConfusion hpc
  | waitFail msg h =>
    refine ⟨fun hq => absurd (show ("failed" : String) = "queued" from hq) (by decide),
      fun hpc => ?_⟩
    rcases hpc with hpc | hpc <;> exact Wpc.noConfusion hpc
  | stderrDone rc txt h =>
    refine ⟨fun hq => absurd (show ("failed" : String) = "queued" from hq) (by decide),
      fun hpc => ?_⟩
    rcases hpc with hpc | hpc <;> exact Wpc.noConfusion hpc
  | cancelNoProc h => exact ⟨h1, h2⟩
  | cancelProc p h =>
    refine ⟨fun hq => absurd (show ("cancelled" : String) = "queued" from hq) (by decide),
      fun hpc => ?_⟩
    have h3 := h2 hpc
    rw [h] at h3
    exact Option.noConfusion h3
  | query => exact ⟨h1, h2⟩

theorem reaches_inv {j0 : TranscodeJob} {s : JobSysState}
    (h0 : j0.status = "queued" ∧ j0.process = none)
    (h : Reaches (initState j0) s) : SysInv s := by
  induction h with
  | refl => exact ⟨fun _ => rfl, fun _ => h0.2⟩
  | tail hr hstep ih =>
    obtain ⟨l, hs⟩ := hstep
    exact step_preserves_inv ih hs

/-- C10: in every state reachable by interleaving the worker coroutine
with cancel calls and status queries, starting from a freshly created
job, a job whose status is still `queued` has a `None` process handle
(the worker stores the handle only after its first block has already set
`processing`); a `cancel_job` call in such a state returns `false` and
changes nothing; and no single step takes a `queued` job to
`cancelled`. -/
theorem c10_queued_never_cancelled (j0 : TranscodeJob) (s : JobSysState)
    (h0 : j0.status = "queued" ∧ j0.process = none)
    (hr : Reaches (initState j0) s) :
    (s.job.status = "queued" → s.job.process = none) ∧
    (∀ (b : Bool) (s' : JobSysState), Step s (OpLabel.cancelCall b) s' →
      s.job.status = "queued" → b = false ∧ s' = s) ∧
    (∀ (l : OpLabel) (s' : JobSysState), Step s l s' →
      s.job.status = "queued" → s'.job.status ≠ "cancelled") := by
  have inv := reaches_inv h0 hr
  have hqn : s.job.status = "queued" → s.job.process = none := fun hq =>
    inv.2 (Or.inl (inv.1 hq))
  refine ⟨hqn, fun b s' hs hq => ?_, fun l s' hs hq => ?_⟩
  · cases hs with
    | cancelNoProc h => exact ⟨rfl, rfl⟩
    | cancelProc p h =>
      rw [hqn hq] at h
      exact Option.noConfusion h
  · cases hs with
    | startOk h =>
      exact fun hc => absurd (show ("processing" : String) = "cancelled" from hc) (by decide)
    | startFail msg h =>
      exact fun hc => absurd (show ("failed" : String) = "cancelled" from hc) (by decide)
    | spawnOk pid lines h => exact fun hc => absurd (hq.symm.trans hc) (by decide)
    | spawnFail msg h =>
      exact fun hc => absurd (show ("failed" : String) = "cancelled" from hc) (by decide)
    | readLine l rest h => exact fun hc => absurd (hq.symm.trans hc) (by decide)
    | readFail msg pending h =>
      exact fun hc => absurd (show ("failed" : String) = "cancelled" from hc) (by decide)
    | readEOF h => exact fun hc => absurd (hq.symm.trans hc) (by decide)
    | exitZero h =>
      exact fun hc => absurd (show ("completed" : String) = "cancelled" from hc) (by decide)
    | exitNonzero rc hrc h => exact fun hc => absurd (hq.symm.trans hc) (by decide)
    | waitFail msg h =>
      exact fun hc => absurd (show ("failed" : String) = "cancelled" from hc) (by decide)
    | stderrDone rc txt h =>
      exact fun hc => absurd (show ("failed" : String) = "cancelled" from hc) (by decide)
    | cancelNoProc h => exact fun hc => absurd (hq.symm.trans hc) (by decide)
    | cancelProc p h =>
      rw [hqn hq] at h
      exact Option.noConfusion h
    | query => exact fun hc => absurd (hq.symm.trans hc) (by decide)

/-- Witness for C10 at the freshly created concrete job. -/
theorem c10_queued_never_cancelled_witness :
    (initState job0).job.process = none :=
  (c10_queued_never_cancelled job0 (initState job0) ⟨rfl, rfl⟩
    Relation.ReflTransGen.refl).1 rfl

/-- A second inductive invariant about terminal statuses: a worker
coroutine that has not yet been scheduled can only see the original
`queued` status, and `completed`/`failed` are only ever written together
with the worker's final position, so they coexist only with `pc = done`
(`cancelled`, written by `cancel_job`, is the one terminal status that
can exist while the worker is still mid-run). -/
def TerminalInv (s : JobSysState) : Prop :=
  (s.pc = Wpc.created → s.job.status = "queued") ∧
  ((s.job.status = "completed" ∨ s.job.status = "failed") → s.pc = Wpc.done)

theorem step_preserves_terminalInv {s s' : JobSysState} {l : OpLabel}
    (hs : SysInv s) (ht : TerminalInv s) (hstep : Step s l s') : TerminalInv s' := by
  obtain ⟨t1, t2⟩ := ht
  cases hstep with
  | startOk h =>
    refine ⟨fun hpc => Wpc.noConfusion hpc, fun hcf => ?_⟩
    rcases hcf with hc | hc <;>
      exact absurd (show ("processing" : String) = _ from hc) (by decide)
  | startFail msg h => exact ⟨fun hpc => Wpc.noConfusion hpc, fun _ => rfl⟩
  | spawnOk pid lines h =>
    refine ⟨fun hpc => Wpc.noConfusion hpc, fun hcf => ?_⟩
    have h3 := t2 hcf
    rw [h] at h3
    exact Wpc.noConfusion h3
  | spawnFail msg h => exact ⟨fun hpc => Wpc.noConfusion hpc, fun _ => rfl⟩
  | readLine l rest h =>
    refine ⟨fun hpc => Wpc.noConfusion hpc, fun hcf => ?_⟩
    have h3 := t2 hcf
    rw [h] at h3
    exact Wpc.noConfusion h3
  | readFail msg pending h => exact ⟨fun hpc => Wpc.noConfusion hpc, fun _ => rfl⟩
  | readEOF h =>
    refine ⟨fun hpc => Wpc.noConfusion hpc, fun hcf => ?_⟩
    have h3 := t2 hcf
    rw [h] at h3
    exact Wpc.noConfusion h3
  | exitZero h => exact ⟨fun hpc => Wpc.noConfusion hpc, fun _ => rfl⟩
  | exitNonzero rc hrc h =>
    refine ⟨fun hpc => Wpc.noConfusion hpc, fun hcf => ?_⟩
    have h3 := t2 hcf
    rw [h] at h3
    exact Wpc.noConfusion h3
  | waitFail msg h => exact ⟨fun hpc => Wpc.noConfusion hpc, fun _ => rfl⟩
  | stderrDone rc txt h => exact ⟨fun hpc => Wpc.noConfusion hpc, fun _ => rfl⟩
  | cancelNoProc h => exact ⟨t1, t2⟩
  | cancelProc p h =>
    refine ⟨fun hpc => ?_, fun hcf => ?_⟩
    · have h3 := hs.2 (Or.inl hpc)
      rw [h] at h3
      exact Option.noConfusion h3
    · rcases hcf with hc | hc <;>
        exact absurd (show ("cancelled" : String) = _ from hc) (by decide)
  | query => exact ⟨t1, t2⟩

theorem reaches_invs {j0 : TranscodeJob} {s : JobSysState}
    (h0 : j0.status = "queued" ∧ j0.process = none)
    (h : Reaches (initState j0) s) : SysInv s ∧ TerminalInv s := by
  induction h with
  | refl =>
    refine ⟨⟨fun _ => rfl, fun _ => h0.2⟩, fun _ => h0.1, fun hcf => ?_⟩
    rcases hcf with hc | hc <;>
      exact absurd (h0.1.symm.trans hc) (by decide)
  | tail hr hstep ih =>
    obtain ⟨l, hs⟩ := hstep
    exact ⟨step_preserves_inv ih.1 hs, step_preserves_terminalInv ih.1 ih.2 hs⟩

/-- A reachable mid-run state whose status was set to `cancelled` by a
cancel call while the worker was still blocked on the read loop: created
queued, worker started (`processing`), process spawned with an empty
stream, then cancelled via the stored handle. -/
def sCancelled : JobSysState :=
  ⟨{ job0 with status := "cancelled", process := some 7 }, Wpc.reading []⟩

/-- `sCancelled` after the worker observes end-of-stream. -/
def sEOF : JobSysState :=
  ⟨sCancelled.job, Wpc.waitingExit⟩

/-- `sEOF` after the worker sees exit code 0: the terminal `cancelled`
has been overwritten with `completed`. -/
def sOverwritten : JobSysState :=
  ⟨{ sCancelled.job with status := "completed", progress := 100 }, Wpc.done⟩

theorem sCancelled_reachable : Reaches (initState job0) sCancelled := by
  have t1 : Reaches (initState job0)
      ⟨{ job0 with status := "processing" }, Wpc.spawning⟩ :=
    Relation.ReflTransGen.tail Relation.ReflTransGen.refl
      ⟨OpLabel.workerStep, Step.startOk (initState job0) rfl⟩
  have t2 : Reaches (initState job0)
      ⟨{ job0 with status := "processing", process := some 7 }, Wpc.reading []⟩ :=
    Relation.ReflTransGen.tail t1
      ⟨OpLabel.workerStep,
        Step.spawnOk ⟨{ job0 with status := "processing" }, Wpc.spawning⟩ 7 [] rfl⟩
  exact Relation.ReflTransGen.tail t2
    ⟨OpLabel.cancelCall true,
      Step.cancelProc
        ⟨{ job0 with status := "processing", process := some 7 }, Wpc.reading []⟩ 7 rfl⟩

/-- C2 amended: once a job's status is terminal, status queries and
handle-free cancel calls change nothing; `completed` and `failed` only
ever arise together with the end of the worker's run, after which no
worker step exists, so such a status changes only through `cancel_job`
on the never-cleared handle, which overwrites it with `cancelled` and
returns true; and a `cancelled` written while the worker is still
mid-run is itself overwritten with `completed` or `failed` by the
worker's end-of-run write — no other change of a terminal status
occurs, and both overwrites are reachable. -/
theorem c2_terminal_preservation :
    (∀ (j0 : TranscodeJob) (s s' : JobSysState) (lab : OpLabel),
        j0.status = "queued" → j0.process = none →
        Reaches (initState j0) s → Step s lab s' → isTerminal s.job.status →
        s'.job.status = s.job.status ∨
        (lab = OpLabel.cancelCall true ∧ s'.job.status = "cancelled") ∨
        (lab = OpLabel.workerStep ∧ s.job.status = "cancelled" ∧
          (s'.job.status = "completed" ∨ s'.job.status = "failed"))) ∧
    (∀ s s' : JobSysState, s.pc = Wpc.done → ¬ Step s OpLabel.workerStep s') ∧
    (Reaches (initState job0) sCancelled ∧ sCancelled.job.status = "cancelled" ∧
      Step sCancelled OpLabel.workerStep sEOF ∧ Step sEOF OpLabel.workerStep sOverwritten ∧
      sOverwritten.job.status = "completed") := by
  refine ⟨?_, ?_, sCancelled_reachable, rfl, Step.readEOF sCancelled rfl,
    Step.exitZero sEOF rfl, rfl⟩
  · intro j0 s s' lab hq0 hp0 hr hstep hterm
    obtain ⟨hsinv, htinv⟩ := reaches_invs ⟨hq0, hp0⟩ hr
    have hterm2 : s.job.status = "completed" ∨ s.job.status = "failed" ∨
        s.job.status = "cancelled" := hterm
    cases hstep with
    | startOk h =>
      have hq := htinv.1 h
      rcases hterm2 with hc | hc | hc <;> exact absurd (hq.symm.trans hc) (by decide)
    | startFail msg h =>
      have hq := htinv.1 h
      rcases hterm2 with hc | hc | hc <;> exact absurd (hq.symm.trans hc) (by decide)
    | spawnOk pid lines h => exact Or.inl rfl
    | spawnFail msg h =>
      rcases hterm2 with hc | hc | hc
      · have h3 := htinv.2 (Or.inl hc)
        rw [h] at h3
        exact Wpc.noConfusion h3
      · have h3 := htinv.2 (Or.inr hc)
        rw [h] at h3
        exact Wpc.noConfusion h3
      · exact Or.inr (Or.inr ⟨rfl, hc, Or.inr rfl⟩)
    | readLine l rest h => exact Or.inl rfl
    | readFail msg pending h =>
      rcases hterm2 with hc | hc | hc
      · have h3 := htinv.2 (Or.inl hc)
        rw [h] at h3
        exact Wpc.noConfusion h3
      · have h3 := htinv.2 (Or.inr hc)
        rw [h] at h3
        exact Wpc.noConfusion h3
      · exact Or.inr (Or.inr ⟨rfl, hc, Or.inr rfl⟩)
    | readEOF h => exact Or.inl rfl
    | exitZero h =>
      rcases hterm2 with hc | hc | hc
      · have h3 := htinv.2 (Or.inl hc)
        rw [h] at h3
        exact Wpc.noConfusion h3
      · have h3 := htinv.2 (Or.inr hc)
        rw [h] at h3
        exact Wpc.noConfusion h3
      · exact Or.inr (Or.inr ⟨rfl, hc, Or.inl rfl⟩)
    | exitNonzero rc hrc h => exact Or.inl rfl
    | waitFail msg h =>
      rcases hterm2 with hc | hc | hc
      · have h3 := htinv.2 (Or.inl hc)
        rw [h] at h3
        exact Wpc.noConfusion h3
      · have h3 := htinv.2 (Or.inr hc)
        rw [h] at h3
        exact Wpc.noConfusion h3
      · exact Or.inr (Or.inr ⟨rfl, hc, Or.inr rfl⟩)
    | stderrDone rc txt h =>
      rcases hterm2 with hc | hc | hc
      · have h3 := htinv.2 (Or.inl hc)
        rw [h] at h3
        exact Wpc.noConfusion h3
      · have h3 := htinv.2 (Or.inr hc)
        rw [h] at h3
        exact Wpc.noConfusion h3
      · exact Or.inr (Or.inr ⟨rfl, hc, Or.inr rfl⟩)
    | cancelNoProc h => exact Or.inl rfl
    | cancelProc p h => exact Or.inr (Or.inl ⟨rfl, rfl⟩)
    | query => exact Or.inl rfl
  · intro s s' hpc hstep
    cases hstep with
    | startOk h => rw [hpc] at h; exact Wpc.noConfusion h
    | startFail msg h => rw [hpc] at h; exact Wpc.noConfusion h
    | spawnOk pid lines h => rw [hpc] at h; exact Wpc.noConfusion h
    | spawnFail msg h => rw [hpc] at h; exact Wpc.noConfusion h
    | readLine l rest h => rw [hpc] at h; exact Wpc.noConfusion h
    | readFail msg pending h => rw [hpc] at h; exact Wpc.noConfusion h
    | readEOF h => rw [hpc] at h; exact Wpc.noConfusion h
    | exitZero h => rw [hpc] at h; exact Wpc.noConfusion h
    | exitNonzero rc hrc h => rw [hpc] at h; exact Wpc.noConfusion h
    | waitFail msg h => rw [hpc] at h; exact Wpc.noConfusion h
    | stderrDone rc txt h => rw [hpc] at h; exact Wpc.noConfusion h

/-- Witness for the amended C2: the end-of-stream step applied to the
reachable mid-run cancelled state, with every hypothesis discharged
concretely (the step preserves the status, so the first disjunct holds). -/
theorem c2_terminal_preservation_witness :
    sEOF.job.status = sCancelled.job.status ∨
      (OpLabel.workerStep = OpLabel.cancelCall true ∧ sEOF.job.status = "cancelled") ∨
      (OpLabel.workerStep = OpLabel.workerStep ∧ sCancelled.job.status = "cancelled" ∧
        (sEOF.job.status = "completed" ∨ sEOF.job.status = "failed")) :=
  c2_terminal_preservation.1 job0 sCancelled sEOF OpLabel.workerStep rfl rfl
    sCancelled_reachable (Step.readEOF sCancelled rfl) (Or.inr (Or.inr rfl))

end HandbrakeMCP
